import Mathlib

/-
Verification of the patch-engine core of the Bot_discord repository.

The definitions below are a shallow embedding of the JavaScript source:
  - src/patchEngine.js : tokenize, parseKeyValue, loadOpsMap, resolveOp,
    parsePatchScript, makeConfirmCode, applyActions
  - src/index.js : the patch plan / apply / cancel subcommand handlers and the
    pendingPatches store with PATCH_CONFIRM_TTL_MS.

JavaScript strings are modelled as Lean String; the per-action external
Discord calls performed by the handlers are modelled by an abstract state type
sigma threaded through the executor, with each handler an arbitrary function
from state and bound arguments to a new state and either a success record or a
raised error message.  Times (Date.now) are modelled as Int milliseconds.
-/

namespace Sawachi

/-- Characters treated as whitespace by the tokenizer regex class and by
String.prototype.trim, restricted to the ASCII range actually reachable from
the script inputs (space, tab, newline, carriage return, vertical tab, form
feed). -/
def jsIsSpace (c : Char) : Bool :=
  c = ' ' || c = '\t' || c = '\n' || c = '\r' || c = '\x0b' || c = '\x0c'

/-- Trim of a character list: drop whitespace from both ends, as in
String.prototype.trim. -/
def jsTrimList (cs : List Char) : List Char :=
  ((cs.dropWhile jsIsSpace).reverse.dropWhile jsIsSpace).reverse

/-- Model of String.prototype.trim. -/
def jsTrim (s : String) : String := ⟨jsTrimList s.data⟩

/-- Split a character list at every occurrence of a separator character, as in
String.prototype.split with a one-character separator; always returns at least
one (possibly empty) part. -/
def splitOnChar (sep : Char) : List Char → List (List Char)
  | [] => [[]]
  | c :: cs =>
    let r := splitOnChar sep cs
    if c = sep then [] :: r
    else
      match r with
      | h :: t => (c :: h) :: t
      | [] => [[c]]

/-- Drop a single trailing carriage return, used to model splitting on the
regular expression matching an optional carriage return followed by a
newline. -/
def stripTrailingCR (cs : List Char) : List Char :=
  if cs.getLast? = some '\r' then cs.dropLast else cs

/-- Model of text.split on an optional carriage return followed by a newline,
as used by parsePatchScript and loadOpsMap on their input text. -/
def jsSplitLines (s : String) : List String :=
  (splitOnChar '\n' s.data).map (fun l => ⟨stripTrailingCR l⟩)

/-- Test for a leading hash character, modelling line.startsWith of the
comment marker. -/
def jsStartsWithHash (s : String) : Bool :=
  match s.data with
  | '#' :: _ => true
  | _ => false

/-- Model of String.prototype.toUpperCase on the ASCII inputs involved. -/
def jsToUpperCase (s : String) : String := ⟨s.data.map Char.toUpper⟩

/-- Index of the first occurrence of a character, as String.prototype.indexOf
restricted to success or failure (failure modelled as none instead of -1). -/
def charIndex (x : Char) : List Char → Option Nat
  | [] => none
  | c :: cs => if c = x then some 0 else (charIndex x cs).map (· + 1)

/-- Content and remainder of a quoted span: splits the list at the first
occurrence of the closing quote character, returning the characters before it
and the characters after it. -/
def findClose (q : Char) : List Char → Option (List Char × List Char)
  | [] => none
  | c :: cs =>
    if c = q then some ([], cs)
    else
      match findClose q cs with
      | some (a, b) => some (c :: a, b)
      | none => none

/-- Longest non-whitespace prefix and the rest, modelling a greedy match of
one or more non-whitespace characters. -/
def takeTok : List Char → List Char × List Char
  | [] => ([], [])
  | c :: cs =>
    if jsIsSpace c then ([], c :: cs)
    else
      let p := takeTok cs
      (c :: p.1, p.2)

/-- Fuel-driven scan of one line, modelling the global regex of tokenize in
src/patchEngine.js: at each position a double-quoted span (when a closing
double quote exists) or a single-quoted span (when a closing single quote
exists) becomes one token with the quotes stripped, and otherwise a maximal
run of non-whitespace characters becomes one token verbatim.  The fuel is the
length of the list, which each step strictly decreases, so it never runs
out. -/
def tokenizeAux : Nat → List Char → List (List Char)
  | 0, _ => []
  | _ + 1, [] => []
  | fuel + 1, c :: cs =>
    if jsIsSpace c then tokenizeAux fuel cs
    else if c = '"' then
      match findClose '"' cs with
      | some (content, rest) => content :: tokenizeAux fuel rest
      | none =>
        let p := takeTok (c :: cs)
        p.1 :: tokenizeAux fuel p.2
    else if c = '\'' then
      match findClose '\'' cs with
      | some (content, rest) => content :: tokenizeAux fuel rest
      | none =>
        let p := takeTok (c :: cs)
        p.1 :: tokenizeAux fuel p.2
    else
      let p := takeTok (c :: cs)
      p.1 :: tokenizeAux fuel p.2

/-- Model of tokenize from src/patchEngine.js. -/
def tokenize (line : String) : List String :=
  (tokenizeAux line.data.length line.data).map (fun l => ⟨l⟩)

/-- Assignment into a JavaScript object used as a string map: an existing key
is overwritten in place, a new key is appended. -/
def jsObjSet (m : List (String × String)) (k v : String) : List (String × String) :=
  if m.any (fun p => p.1 == k) then m.map (fun p => if p.1 == k then (k, v) else p)
  else m ++ [(k, v)]

/-- Key-membership test on the object model, as the JavaScript in
operator. -/
def jsObjHas (m : List (String × String)) (k : String) : Bool :=
  m.any (fun p => p.1 == k)

/-- Property read on the object model. -/
def jsObjGet (m : List (String × String)) (k : String) : Option String :=
  (m.find? (fun p => p.1 == k)).map (·.2)

/-- Model of parseKeyValue from src/patchEngine.js: a token whose first
equals sign is at an index greater than zero is a named argument (key before
the equals sign, value after it, both trimmed, later duplicates overwriting
earlier ones); every other token is positional, kept in encounter order. -/
def parseKeyValue (tokens : List String) : List (String × String) × List String :=
  tokens.foldl
    (fun acc t =>
      match charIndex '=' t.data with
      | some eq =>
        if eq > 0 then
          (jsObjSet acc.1 (jsTrim ⟨t.data.take eq⟩) (jsTrim ⟨t.data.drop (eq + 1)⟩), acc.2)
        else (acc.1, acc.2 ++ [t])
      | none => (acc.1, acc.2 ++ [t]))
    ([], [])

/-- Operation descriptor stored in the registry: handler identifier, declared
parameter names in order, and the source line of the mapping entry. -/
structure OpDescr where
  handler : String
  params : List String
  line : Nat
deriving DecidableEq, Repr

/-- Registry table: key-value pairs in insertion order, modelling a
JavaScript Map. -/
abbrev OpsMap := List (String × OpDescr)

/-- Map.set on the registry model: overwrite in place or append. -/
def jsMapSet (m : OpsMap) (k : String) (v : OpDescr) : OpsMap :=
  if m.any (fun p => p.1 == k) then m.map (fun p => if p.1 == k then (k, v) else p)
  else m ++ [(k, v)]

/-- Map.get on the registry model. -/
def mapGet (m : OpsMap) (k : String) : Option OpDescr :=
  (m.find? (fun p => p.1 == k)).map (·.2)

/-- Per-line step of loadOpsMap in src/patchEngine.js: blank and comment
lines yield nothing; the line is split at equals signs and the first two
parts trimmed; if the first part is empty or the second part is missing or
empty the line yields nothing; otherwise the left part is split at colons
into verb and resource type (a missing resource type is stringified to the
text undefined, exactly as the JavaScript template literal does), the right
part is split at colons into handler and comma-separated parameter names, and
an entry is produced. -/
def opsLineEntry (i : Nat) (rawLine : String) : Option (String × OpDescr) :=
  let ln := jsTrim rawLine
  if ln = "" || jsStartsWithHash ln then none
  else
    let parts := (splitOnChar '=' ln.data).map (fun l => jsTrim ⟨l⟩)
    let left := parts.headD ""
    match parts.get? 1 with
    | none => none
    | some right =>
      if left = "" || right = "" then none
      else
        let lparts := (splitOnChar ':' left.data).map (fun l => jsTrim ⟨l⟩)
        let verb := lparts.headD ""
        let typeStr := (lparts.get? 1).getD "undefined"
        let rparts := (splitOnChar ':' right.data).map (fun l => jsTrim ⟨l⟩)
        let handler := rparts.headD ""
        let paramsRaw := (rparts.get? 1).getD ""
        let params :=
          if paramsRaw = "" then []
          else ((splitOnChar ',' paramsRaw.data).map (fun l => jsTrim ⟨l⟩)).filter (fun s => s ≠ "")
        some (verb ++ ":" ++ typeStr, ⟨handler, params, i + 1⟩)

/-- Indexed fold building the registry from the lines of the mapping
source. -/
def loadOpsLines : Nat → List String → OpsMap → OpsMap
  | _, [], m => m
  | i, ln :: rest, m =>
    match opsLineEntry i ln with
    | none => loadOpsLines (i + 1) rest m
    | some kv => loadOpsLines (i + 1) rest (jsMapSet m kv.1 kv.2)

/-- Model of loadOpsMap from src/patchEngine.js, taking the text content of
the operations file (the file read itself is the input-output boundary). -/
def loadOpsMap (raw : String) : OpsMap :=
  loadOpsLines 0 (jsSplitLines raw) []

/-- Model of resolveOp from src/patchEngine.js: exact composite key first,
then the wildcard key for the same verb. -/
def resolveOp (m : OpsMap) (verb type : String) : Option OpDescr :=
  match mapGet m (verb ++ ":" ++ type) with
  | some e => some e
  | none => mapGet m (verb ++ ":*")

/-- Parsed action: verb, resource type, handler identifier, bound arguments
as a string map, one-based source line number and the raw line text. -/
structure Action where
  verb : String
  type : String
  handler : String
  args : List (String × String)
  line : Nat
  raw : String
deriving DecidableEq, Repr

/-- Result of parsePatchScript. -/
structure ParseResult where
  actions : List Action
  errors : List String
  warnings : List String
deriving DecidableEq, Repr

/-- Format-error diagnostic for a line with fewer than two tokens. -/
def fmtInvalidMsg (lineNo : Nat) : String :=
  "Ligne " ++ (toString lineNo ++ ": format invalide (verb + type requis)")

/-- Unknown-operation diagnostic for a line whose verb and resource type
resolve to no registry entry. -/
def unknownOpMsg (lineNo : Nat) (verb type : String) : String :=
  "Ligne " ++ (toString lineNo ++ (": opération inconnue \"" ++ (verb ++ (":" ++ (type ++ "\"")))))

/-- Overflow diagnostic appended once when the action count exceeds the
configured maximum. -/
def overflowMsg (maxActions : Nat) : String :=
  "Trop d’actions (> " ++ (toString maxActions ++ "). Réduis le patch ou augmente PATCH_MAX_ACTIONS.")

/-- Argument binding of parsePatchScript: for each declared parameter name in
schema order, take the named value on an exact key match, otherwise shift the
next positional value, otherwise the empty string. -/
def bindArgs (params : List String) (named : List (String × String)) (positional : List String) :
    List (String × String) × List String :=
  params.foldl
    (fun acc p =>
      if jsObjHas named p then (jsObjSet acc.1 p ((jsObjGet named p).getD ""), acc.2)
      else
        match acc.2 with
        | q :: qs => (jsObjSet acc.1 p q, qs)
        | [] => (jsObjSet acc.1 p "", []))
    ([], positional)

/-- Outcome of processing one script line, factoring the loop body of
parsePatchScript: the line is skipped, produces a diagnostic, or produces an
action. -/
inductive LineOut where
  | skip
  | err (msg : String)
  | act (a : Action)
deriving Repr

/-- Loop body of parsePatchScript for the zero-based line index i: trim and
filter blank and comment lines, tokenize, require at least two tokens,
apply the colon shorthand when the first token contains a colon (an empty
part after the colon falls back to the second token), resolve the operation
with wildcard fallback, and bind arguments over the declared parameters. -/
def lineStep (opsMap : OpsMap) (i : Nat) (raw : String) : LineOut :=
  let line := jsTrim raw
  if line = "" || jsStartsWithHash line then .skip
  else
    let tokens := tokenize line
    if tokens.length < 2 then .err (fmtInvalidMsg (i + 1))
    else
      let verb0 := tokens.headD ""
      let type0 := (tokens.get? 1).getD ""
      let vtr : String × String × Nat :=
        if verb0.data.contains ':' then
          let parts := splitOnChar ':' verb0.data
          let t : String := ⟨(parts.get? 1).getD []⟩
          (⟨parts.headD []⟩, if t = "" then type0 else t, 1)
        else (verb0, type0, 2)
      match resolveOp opsMap vtr.1 vtr.2.1 with
      | none => .err (unknownOpMsg (i + 1) vtr.1 vtr.2.1)
      | some op =>
        let kv := parseKeyValue (tokens.drop vtr.2.2)
        .act ⟨vtr.1, vtr.2.1, op.handler, (bindArgs op.params kv.1 kv.2).1, i + 1, raw⟩

/-- Accumulator of the parsePatchScript loop. -/
structure ParseState where
  actions : List Action
  errors : List String
deriving Repr

/-- Line loop of parsePatchScript: actions and errors are appended in
encounter order; after an action is appended, if the action count exceeds
the maximum the overflow diagnostic is appended and the loop breaks. -/
def parseLines (opsMap : OpsMap) (maxA : Nat) : Nat → List String → ParseState → ParseState
  | _, [], st => st
  | i, raw :: rest, st =>
    match lineStep opsMap i raw with
    | .skip => parseLines opsMap maxA (i + 1) rest st
    | .err m => parseLines opsMap maxA (i + 1) rest ⟨st.actions, st.errors ++ [m]⟩
    | .act a =>
      if (st.actions ++ [a]).length > maxA then
        ⟨st.actions ++ [a], st.errors ++ [overflowMsg maxA]⟩
      else parseLines opsMap maxA (i + 1) rest ⟨st.actions ++ [a], st.errors⟩

/-- Model of parsePatchScript from src/patchEngine.js (the maxActions option
is passed explicitly; the source default is 500). -/
def parsePatchScript (scriptText : String) (opsMap : OpsMap) (maxActions : Nat) : ParseResult :=
  let st := parseLines opsMap maxActions 0 (jsSplitLines scriptText) ⟨[], []⟩
  ⟨st.actions, st.errors, []⟩

/-- Success value returned by a handler. -/
structure HandlerRes where
  changed : Bool
  targetId : Option String
deriving DecidableEq, Repr

/-- One entry of the executor result list.  A missing optional field of the
JavaScript result object is modelled as none. -/
structure ActionResult where
  ok : Bool
  line : Nat
  handler : Option String
  error : Option String
  changed : Option Bool
  targetId : Option String
deriving DecidableEq, Repr

/-- Handler table: each handler identifier may map to a runtime
implementation, which takes the external state and the bound arguments and
returns the new external state together with either a success record or a
raised error message.  The external state type abstracts the Discord guild
the JavaScript handlers mutate. -/
abbrev HandlerMap (σ : Type) :=
  String → Option (σ → List (String × String) → σ × Except String HandlerRes)

/-- Model of applyActions from src/patchEngine.js: strictly sequential left
to right; an unregistered handler records a failure without a handler field;
a raised error is caught and recorded with the source line, handler
identifier and message; execution always continues with the next action. -/
def applyActions {σ : Type} (handlers : HandlerMap σ) : σ → List Action → σ × List ActionResult
  | s, [] => (s, [])
  | s, a :: rest =>
    match handlers a.handler with
    | none =>
      let sr := applyActions handlers s rest
      (sr.1, ⟨false, a.line, none, some ("handler inconnu: " ++ a.handler), none, none⟩ :: sr.2)
    | some fn =>
      let fr := fn s a.args
      let res : ActionResult :=
        match fr.2 with
        | .ok h => ⟨true, a.line, some a.handler, none, some h.changed, h.targetId⟩
        | .error e => ⟨false, a.line, some a.handler, some e, none, none⟩
      let sr := applyActions handlers fr.1 rest
      (sr.1, res :: sr.2)

/-- Hexadecimal digit character used by Buffer.toString with the hex
encoding (lowercase): a decimal digit below ten, a lowercase letter from
ten. -/
def hexDigitChar (d : Nat) : Char :=
  if d < 10 then Char.ofNat (48 + d) else Char.ofNat (87 + d)

/-- Range test for the characters a confirmation code may contain: a decimal
digit or an uppercase letter between A and F. -/
def isUpperHexDigit (c : Char) : Bool :=
  ('0' ≤ c && c ≤ '9') || ('A' ≤ c && c ≤ 'F')

/-- Two lowercase hexadecimal digits of one byte. -/
def byteToHex (b : Nat) : List Char := [hexDigitChar (b / 16), hexDigitChar (b % 16)]

/-- Model of makeConfirmCode from src/patchEngine.js applied to the three
random bytes drawn by crypto.randomBytes: hex-encode and uppercase. -/
def makeConfirmCode (b0 b1 b2 : Nat) : String :=
  jsToUpperCase ⟨byteToHex b0 ++ byteToHex b1 ++ byteToHex b2⟩

/-- Pending patch stored per guild by the plan subcommand in src/index.js. -/
structure PendingPatch where
  code : String
  actions : List Action
  createdAt : Int
  hasDeletes : Bool

/-- Store of pending patches keyed by guild identifier, modelling the
pendingPatches Map of src/index.js. -/
abbrev PatchStore := String → Option PendingPatch

/-- Map.set on the patch store. -/
def storeSet (st : PatchStore) (k : String) (v : PendingPatch) : PatchStore :=
  fun x => if x = k then some v else st x

/-- Map.delete on the patch store. -/
def storeDelete (st : PatchStore) (k : String) : PatchStore :=
  fun x => if x = k then none else st x

/-- Confirmation time-to-live from src/index.js, in milliseconds. -/
def PATCH_CONFIRM_TTL_MS : Int := 10 * 60 * 1000

/-- Outcome of the apply subcommand: one of the four gate failures, or the
executed result list. -/
inductive ApplyOutcome where
  | noPending
  | expired
  | invalidCode
  | destructiveBlocked
  | executed (results : List ActionResult)
deriving DecidableEq, Repr

/-- Outcome of the plan subcommand: the capped error list, or the
confirmation code together with the destructive flag of the stored plan. -/
inductive PlanOutcome where
  | invalid (shown : List String)
  | planned (code : String) (hasDeletes : Bool)
deriving DecidableEq, Repr

/-- Model of the patch plan subcommand handler in src/index.js: parse the
script; on any diagnostic return the first fifteen errors and leave the
store untouched; otherwise compute the destructive flag over the delete
handlers, store a fresh pending patch under the guild identifier
(overwriting any previous one) and return the code and flag.  The random
confirmation code and the current time are passed in as inputs. -/
def patchPlan (store : PatchStore) (gid : String) (text : String) (opsMap : OpsMap)
    (maxActions : Nat) (code : String) (now : Int) : PlanOutcome × PatchStore :=
  let r := parsePatchScript text opsMap maxActions
  if r.errors ≠ [] then (.invalid (r.errors.take 15), store)
  else
    let hasDeletes := r.actions.any (fun a => a.handler == "channel.delete" || a.handler == "role.delete")
    (.planned code hasDeletes, storeSet store gid ⟨code, r.actions, now, hasDeletes⟩)

/-- Model of the patch apply subcommand handler in src/index.js: uppercase
the submitted code, then check the four gates in order (existence, expiry
with deletion on failure, code equality with retention on failure,
destructive gating with retention on failure), and only then run the
executor over the stored actions and unconditionally delete the pending
patch. -/
def patchApply {σ : Type} (handlers : HandlerMap σ) (store : PatchStore) (gid : String)
    (now : Int) (rawCode : String) (allowDeletes : Bool) (s0 : σ) :
    ApplyOutcome × PatchStore × σ :=
  let code := jsToUpperCase rawCode
  match store gid with
  | none => (.noPending, store, s0)
  | some pending =>
    if now - pending.createdAt > PATCH_CONFIRM_TTL_MS then (.expired, storeDelete store gid, s0)
    else if pending.code ≠ code then (.invalidCode, store, s0)
    else if pending.hasDeletes && !allowDeletes then (.destructiveBlocked, store, s0)
    else
      let sr := applyActions handlers s0 pending.actions
      (.executed sr.2, storeDelete store gid, sr.1)

/-- Model of the patch cancel subcommand handler in src/index.js. -/
def patchCancel (store : PatchStore) (gid : String) : PatchStore := storeDelete store gid

end Sawachi

namespace Sawachi

/-! Concrete fixtures used by counterexamples and witnesses. -/

/-- Empty patch store. -/
def emptyStore : PatchStore := fun _ => none

/-- Registry with a single wildcard entry for the verb noop. -/
def c1Reg : OpsMap := [("noop:*", ⟨"noop", [], 1⟩)]

/-- Script of six otherwise-valid noop lines. -/
def c1Script : String := "noop x\nnoop x\nnoop x\nnoop x\nnoop x\nnoop x"

/-- Registry mapping the composite key of set and channel to handlerA with
parameters id and name. -/
def regSetChannel : OpsMap := [("set:channel", ⟨"handlerA", ["id", "name"], 1⟩)]

/-- The three-line script of the diagnostics test fixture. -/
def c8Script : String := "# note\nset channel 111111111111111111 name=\"Lounge\"\nbogus thing\n"

/-- Registry mapping the composite key of delete and channel to the
channel.delete handler. -/
def regDelChannel : OpsMap := [("delete:channel", ⟨"channel.delete", ["id"], 1⟩)]

/-- One-line script resolving to the channel.delete handler. -/
def delScript : String := "delete channel 111111111111111111"

/-- Sample action used in stored pending patches. -/
def aKeep : Action := ⟨"set", "channel", "handlerA", [("id", "1"), ("name", "x")], 1, "set channel 1 x"⟩

/-- Handler table registering no handler at all. -/
def hmNone : HandlerMap Unit := fun _ => none

/-- Pending patch with a known code, no deletes, created at time zero. -/
def pA : PendingPatch := ⟨"ABC123", [aKeep], 0, false⟩

/-- Store holding pA under the guild identifier g. -/
def storeA : PatchStore := storeSet emptyStore "g" pA

/-- Stateful test handler on a natural-number state: raises exactly when the
state is one, and always increments the state. -/
def wFn : Nat → List (String × String) → Nat × Except String HandlerRes :=
  fun s _ => (s + 1, if s = 1 then Except.error "boom" else Except.ok ⟨true, none⟩)

/-- Handler table registering wFn under the identifier h. -/
def wHandlers : HandlerMap Nat := fun k => if k = "h" then some wFn else none

/-- Three test actions on source lines one, two and three. -/
def wA1 : Action := ⟨"set", "channel", "h", [], 1, "set channel"⟩

/-- Second test action. -/
def wA2 : Action := ⟨"set", "channel", "h", [], 2, "set channel"⟩

/-- Third test action. -/
def wA3 : Action := ⟨"set", "channel", "h", [], 3, "set channel"⟩

/-- Pending patch carrying the generated confirmation code of the bytes
171, 205, 239. -/
def pC : PendingPatch := ⟨makeConfirmCode 171 205 239, [], 0, false⟩

/-- Store holding pC under the guild identifier g. -/
def storeC : PatchStore := storeSet emptyStore "g" pC

/-! Helper lemmas. -/

/-- Two string concatenations whose left parts start with different
characters are different strings. -/
theorem string_head_ne (c d : Char) (hcd : c ≠ d) (a b x y : String)
    (ha : a.data.head? = some c) (hb : b.data.head? = some d) : a ++ x ≠ b ++ y := by
  intro h
  have h2 := congrArg (fun s : String => s.data.head?) h
  simp only [String.data_append] at h2
  cases ha2 : a.data with
  | nil => rw [ha2] at ha; simp at ha
  | cons c' as =>
    cases hb2 : b.data with
    | nil => rw [hb2] at hb; simp at hb
    | cons d' bs =>
      rw [ha2] at ha h2
      rw [hb2] at hb h2
      simp only [List.cons_append, List.head?_cons, Option.some.injEq] at ha hb h2
      exact hcd (ha ▸ hb ▸ h2)

/-- Format diagnostics are never the overflow diagnostic. -/
theorem fmtInvalid_ne_overflow (n m : Nat) : fmtInvalidMsg n ≠ overflowMsg m := by
  unfold fmtInvalidMsg overflowMsg
  exact string_head_ne 'L' 'T' (by decide) "Ligne " "Trop d’actions (> " _ _ (by decide) (by decide)

/-- Unknown-operation diagnostics are never the overflow diagnostic. -/
theorem unknownOp_ne_overflow (n : Nat) (v t : String) (m : Nat) :
    unknownOpMsg n v t ≠ overflowMsg m := by
  unfold unknownOpMsg overflowMsg
  exact string_head_ne 'L' 'T' (by decide) "Ligne " "Trop d’actions (> " _ _ (by decide) (by decide)

/-- Every diagnostic produced by a line step is a format or
unknown-operation diagnostic for that line. -/
theorem lineStep_err_shape (ops : OpsMap) (i : Nat) (raw msg : String)
    (h : lineStep ops i raw = .err msg) :
    msg = fmtInvalidMsg (i + 1) ∨ ∃ v t, msg = unknownOpMsg (i + 1) v t := by
  simp only [lineStep] at h
  split at h
  · exact absurd h (by simp)
  · split at h
    · exact Or.inl (LineOut.err.inj h).symm
    · split at h
      · exact Or.inr ⟨_, _, (LineOut.err.inj h).symm⟩
      · exact absurd h (by simp)

/-- A line-step diagnostic is never the overflow diagnostic. -/
theorem lineStep_err_ne_overflow (ops : OpsMap) (i : Nat) (raw msg : String) (m : Nat)
    (h : lineStep ops i raw = .err msg) : msg ≠ overflowMsg m := by
  rcases lineStep_err_shape ops i raw msg h with h1 | ⟨v, t, h1⟩
  · exact h1 ▸ fmtInvalid_ne_overflow _ _
  · exact h1 ▸ unknownOp_ne_overflow _ _ _ _

/-- The parse loop only appends to the action list. -/
theorem parseLines_actions_prefix (ops : OpsMap) (maxA : Nat) :
    ∀ (lines : List String) (i : Nat) (st : ParseState),
      ∃ tail, (parseLines ops maxA i lines st).actions = st.actions ++ tail := by
  intro lines
  induction lines with
  | nil => intro i st; exact ⟨[], by simp [parseLines]⟩
  | cons raw rest ih =>
    intro i st
    simp only [parseLines]
    cases hstep : lineStep ops i raw with
    | skip => exact ih (i + 1) st
    | err m => exact ih (i + 1) ⟨st.actions, st.errors ++ [m]⟩
    | act a =>
      dsimp only
      by_cases hc : (st.actions ++ [a]).length > maxA
      · rw [if_pos hc]; exact ⟨[a], rfl⟩
      · rw [if_neg hc]
        obtain ⟨tail, ht⟩ := ih (i + 1) ⟨st.actions ++ [a], st.errors⟩
        exact ⟨[a] ++ tail, by rw [ht]; simp⟩

/-- The executor emits exactly one result per action, in order: the result
lines are the action lines. -/
theorem applyActions_map_line {σ : Type} (handlers : HandlerMap σ) :
    ∀ (t : σ) (acts : List Action),
      ((applyActions handlers t acts).2).map (fun r => r.line) = acts.map (fun x => x.line) := by
  intro t acts
  induction acts generalizing t with
  | nil => simp [applyActions]
  | cons a rest ih =>
    simp only [applyActions]
    cases h : handlers a.handler with
    | none => simp [ih]
    | some fn =>
      cases he : (fn t a.args).2 <;> simp [he, ih]

end Sawachi

namespace Sawachi

/-- Comparison of a parse-loop run under two caps: as long as the run under
the larger cap stays within the smaller cap, both runs agree; once the run
under the larger cap accumulates more actions than the smaller cap, the run
under the smaller cap holds exactly one action more than the cap, its
actions are the corresponding prefix, and its errors hold the overflow
diagnostic exactly once. -/
theorem parseLines_cap (ops : OpsMap) :
    ∀ (lines : List String) (i : Nat) (st : ParseState) (m m' : Nat),
      m ≤ m' → st.actions.length ≤ m → st.errors.count (overflowMsg m) = 0 →
      ((parseLines ops m' i lines st).actions.length ≤ m →
        parseLines ops m i lines st = parseLines ops m' i lines st) ∧
      (m < (parseLines ops m' i lines st).actions.length →
        (parseLines ops m i lines st).actions = (parseLines ops m' i lines st).actions.take (m + 1) ∧
        (parseLines ops m i lines st).actions.length = m + 1 ∧
        (parseLines ops m i lines st).errors.count (overflowMsg m) = 1) := by
  intro lines
  induction lines with
  | nil =>
    intro i st m m' hmm' hlen hcount
    refine ⟨fun _ => rfl, fun hgt => ?_⟩
    simp only [parseLines] at hgt
    omega
  | cons raw rest ih =>
    intro i st m m' hmm' hlen hcount
    simp only [parseLines]
    cases hstep : lineStep ops i raw with
    | skip => exact ih (i + 1) st m m' hmm' hlen hcount
    | err msg =>
      refine ih (i + 1) ⟨st.actions, st.errors ++ [msg]⟩ m m' hmm' hlen ?_
      have hne : msg ≠ overflowMsg m := lineStep_err_ne_overflow ops i raw msg m hstep
      simp [List.count_append, hcount, List.count_cons, hne]
    | act a =>
      dsimp only
      by_cases hov : (st.actions ++ [a]).length > m
      · have hlA : (st.actions ++ [a]).length = m + 1 := by
          simp only [List.length_append, List.length_cons, List.length_nil] at hov ⊢
          omega
        rw [if_pos hov]
        by_cases hov' : (st.actions ++ [a]).length > m'
        · rw [if_pos hov']
          have hm : m' = m := by omega
          subst hm
          refine ⟨fun hle => ?_, fun _ => ⟨?_, hlA, ?_⟩⟩
          · exact absurd hle (by simp only [hlA]; omega)
          · exact ((st.actions ++ [a]).take_of_length_le (le_of_eq hlA)).symm
          · simp [List.count_append, hcount, List.count_cons]
        · rw [if_neg hov']
          obtain ⟨tail, htail⟩ :=
            parseLines_actions_prefix ops m' rest (i + 1) ⟨st.actions ++ [a], st.errors⟩
          refine ⟨fun hle => ?_, fun _ => ⟨?_, hlA, ?_⟩⟩
          · rw [htail] at hle
            simp only [List.length_append, List.length_cons, List.length_nil] at hle hov
            omega
          · rw [htail]
            exact (List.take_left' hlA).symm
          · simp [List.count_append, hcount, List.count_cons]
      · rw [if_neg hov]
        have hov' : ¬ (st.actions ++ [a]).length > m' := by omega
        rw [if_neg hov']
        exact ih (i + 1) ⟨st.actions ++ [a], st.errors⟩ m m'
          hmm' (by dsimp only; omega) (by simpa using hcount)

end Sawachi

namespace Sawachi

/-- C1 (amended): for every script, registry and configured maximum, when the
number of otherwise-valid action lines (the action count of a parse under a
larger cap) exceeds the maximum, parsePatchScript stops consuming further
lines, appends exactly one overflow diagnostic, and returns exactly
maxActions plus one actions: the check in src/patchEngine.js runs after the
push, so the first action past the cap is still returned. -/
theorem parse_overflow_cap (text : String) (ops : OpsMap) (m M : Nat)
    (hmM : m ≤ M) (hover : m < (parsePatchScript text ops M).actions.length) :
    (parsePatchScript text ops m).actions.length = m + 1 ∧
    (parsePatchScript text ops m).actions = (parsePatchScript text ops M).actions.take (m + 1) ∧
    (parsePatchScript text ops m).errors.count (overflowMsg m) = 1 := by
  have h := parseLines_cap ops (jsSplitLines text) 0 ⟨[], []⟩ m M hmM (by simp) (by simp)
  have h2 := h.2 (by simpa [parsePatchScript] using hover)
  exact ⟨by simpa [parsePatchScript] using h2.2.1,
         by simpa [parsePatchScript] using h2.1,
         by simpa [parsePatchScript] using h2.2.2⟩

/-- C1 counterexample: a script of six otherwise-valid lines parsed with a
maximum of one yields two actions, not one as the claim states (together
with the single overflow diagnostic). -/
theorem parse_overflow_cap_cex :
    (parsePatchScript c1Script c1Reg 1).actions.length = 2 ∧
    (parsePatchScript c1Script c1Reg 1).actions.length ≠ 1 ∧
    (parsePatchScript c1Script c1Reg 1).errors = [overflowMsg 1] := by decide

/-- C1 witness: the amended theorem applied to the six-line script with a
maximum of one against a reference parse with a maximum of ten. -/
theorem parse_overflow_cap_w :
    (parsePatchScript c1Script c1Reg 1).actions.length = 1 + 1 ∧
    (parsePatchScript c1Script c1Reg 1).actions =
      (parsePatchScript c1Script c1Reg 10).actions.take (1 + 1) ∧
    (parsePatchScript c1Script c1Reg 1).errors.count (overflowMsg 1) = 1 :=
  parse_overflow_cap c1Script c1Reg 1 10 (by decide) (by decide)

/-- C2: whenever an apply attempt passes all four gates, execution runs over
the stored actions and the pending patch is deleted unconditionally,
whatever the individual action outcomes (the handler table is arbitrary), so
any subsequent apply for the same target fails with no pending patch. -/
theorem apply_consumes_pending {σ : Type} (handlers : HandlerMap σ) (store : PatchStore)
    (gid : String) (now : Int) (rawCode : String) (allowDeletes : Bool) (s0 : σ) (p : PendingPatch)
    (hp : store gid = some p)
    (httl : ¬ now - p.createdAt > PATCH_CONFIRM_TTL_MS)
    (hcode : p.code = jsToUpperCase rawCode)
    (hdel : p.hasDeletes = false ∨ allowDeletes = true) :
    patchApply handlers store gid now rawCode allowDeletes s0 =
      (ApplyOutcome.executed (applyActions handlers s0 p.actions).2, storeDelete store gid,
        (applyActions handlers s0 p.actions).1) ∧
    storeDelete store gid gid = none ∧
    ∀ (σ' : Type) (h2 : HandlerMap σ') (now2 : Int) (raw2 : String) (allow2 : Bool) (t0 : σ'),
      patchApply h2 (storeDelete store gid) gid now2 raw2 allow2 t0 =
        (ApplyOutcome.noPending, storeDelete store gid, t0) := by
  refine ⟨?_, ?_, ?_⟩
  · simp only [patchApply, hp]
    rw [if_neg httl, if_neg (fun hne => hne hcode)]
    rcases hdel with h | h <;> simp [h]
  · simp [storeDelete]
  · intro σ' h2 now2 raw2 allow2 t0
    simp [patchApply, storeDelete]

/-- C2 witness: a concrete store with a valid unexpired patch, applied with
the correct code under a handler table with no registered handlers. -/
theorem apply_consumes_pending_w :
    patchApply hmNone storeA "g" 5 "abc123" false () =
      (ApplyOutcome.executed (applyActions hmNone () pA.actions).2, storeDelete storeA "g",
        (applyActions hmNone () pA.actions).1) ∧
    storeDelete storeA "g" "g" = none ∧
    patchApply hmNone (storeDelete storeA "g") "g" 99 "abc123" false () =
      (ApplyOutcome.noPending, storeDelete storeA "g", ()) := by
  have h := apply_consumes_pending hmNone storeA "g" 5 "abc123" false () pA
    rfl (by decide) (by decide) (Or.inl rfl)
  exact ⟨h.1, h.2.1, h.2.2 Unit hmNone 99 "abc123" false ()⟩

/-- C3: an apply attempt more than the ten-minute time-to-live after the
plan's creation fails as expired, runs nothing, and deletes the pending
patch, so a second apply for the same target fails with no pending patch
whatever code it submits. -/
theorem apply_expired_one_shot {σ : Type} (handlers : HandlerMap σ) (store : PatchStore)
    (gid : String) (now : Int) (rawCode : String) (allowDeletes : Bool) (s0 : σ) (p : PendingPatch)
    (hp : store gid = some p)
    (httl : now - p.createdAt > PATCH_CONFIRM_TTL_MS) :
    patchApply handlers store gid now rawCode allowDeletes s0 =
      (ApplyOutcome.expired, storeDelete store gid, s0) ∧
    (∀ (σ' : Type) (h2 : HandlerMap σ') (now2 : Int) (raw2 : String) (allow2 : Bool) (t0 : σ'),
      patchApply h2 (storeDelete store gid) gid now2 raw2 allow2 t0 =
        (ApplyOutcome.noPending, storeDelete store gid, t0)) ∧
    PATCH_CONFIRM_TTL_MS = 600000 := by
  refine ⟨?_, ?_, by decide⟩
  · simp only [patchApply, hp]
    rw [if_pos httl]
  · intro σ' h2 now2 raw2 allow2 t0
    simp [patchApply, storeDelete]

/-- C3 witness: the expiry theorem at eleven and twelve minutes after a plan
created at time zero, with the originally correct code. -/
theorem apply_expired_one_shot_w :
    patchApply hmNone storeA "g" 660000 "ABC123" false () =
      (ApplyOutcome.expired, storeDelete storeA "g", ()) ∧
    patchApply hmNone (storeDelete storeA "g") "g" 720000 "ABC123" false () =
      (ApplyOutcome.noPending, storeDelete storeA "g", ()) ∧
    PATCH_CONFIRM_TTL_MS = 600000 := by
  have h := apply_expired_one_shot hmNone storeA "g" 660000 "ABC123" false () pA rfl (by decide)
  exact ⟨h.1, h.2.1 Unit hmNone 720000 "ABC123" false (), h.2.2⟩

/-- C4: an apply attempt on an unexpired patch with a code that does not
match fails as invalid code, runs nothing and leaves the store unchanged, so
a later unexpired apply with the correct code passes the existence, expiry
and code gates. -/
theorem apply_wrong_code_retains {σ : Type} (handlers : HandlerMap σ) (store : PatchStore)
    (gid : String) (now : Int) (rawCode : String) (allowDeletes : Bool) (s0 : σ) (p : PendingPatch)
    (hp : store gid = some p)
    (httl : ¬ now - p.createdAt > PATCH_CONFIRM_TTL_MS)
    (hcode : jsToUpperCase rawCode ≠ p.code) :
    patchApply handlers store gid now rawCode allowDeletes s0 =
      (ApplyOutcome.invalidCode, store, s0) ∧
    ∀ (σ' : Type) (h2 : HandlerMap σ') (now2 : Int) (raw2 : String) (allow2 : Bool) (t0 : σ'),
      ¬ now2 - p.createdAt > PATCH_CONFIRM_TTL_MS → jsToUpperCase raw2 = p.code →
      (patchApply h2 store gid now2 raw2 allow2 t0).1 ≠ ApplyOutcome.invalidCode ∧
      (patchApply h2 store gid now2 raw2 allow2 t0).1 ≠ ApplyOutcome.noPending ∧
      (patchApply h2 store gid now2 raw2 allow2 t0).1 ≠ ApplyOutcome.expired := by
  constructor
  · simp only [patchApply, hp]
    rw [if_neg httl, if_pos (fun h => hcode h.symm)]
  · intro σ' h2 now2 raw2 allow2 t0 httl2 hcode2
    simp only [patchApply, hp]
    rw [if_neg httl2, if_neg (fun hne => hne hcode2.symm)]
    by_cases hb : (p.hasDeletes && !allow2) = true
    · rw [if_pos hb]; exact ⟨by simp, by simp, by simp⟩
    · rw [if_neg hb]; exact ⟨by simp, by simp, by simp⟩

/-- C4 witness: a wrong code then the correct code against the same stored
patch, both before expiry. -/
theorem apply_wrong_code_retains_w :
    patchApply hmNone storeA "g" 5 "zzz" true () =
      (ApplyOutcome.invalidCode, storeA, ()) ∧
    (patchApply hmNone storeA "g" 6 "abc123" true ()).1 ≠ ApplyOutcome.invalidCode ∧
    (patchApply hmNone storeA "g" 6 "abc123" true ()).1 ≠ ApplyOutcome.noPending ∧
    (patchApply hmNone storeA "g" 6 "abc123" true ()).1 ≠ ApplyOutcome.expired := by
  have h := apply_wrong_code_retains hmNone storeA "g" 5 "zzz" true () pA
    rfl (by decide) (by decide)
  exact ⟨h.1, h.2 Unit hmNone 6 "abc123" true () (by decide) (by decide)⟩

/-- C5: a plan whose parsed actions include a delete-class handler stores a
pending patch whose destructive flag is true; an unexpired apply with the
correct code but without the destructive opt-in fails as blocked and
retains the patch, while the same apply with the opt-in proceeds to
execution and consumes the patch. -/
theorem plan_destructive_gating (store : PatchStore) (gid text : String) (ops : OpsMap)
    (maxA : Nat) (code : String) (now : Int)
    (hnoerr : (parsePatchScript text ops maxA).errors = [])
    (hdel : ∃ a ∈ (parsePatchScript text ops maxA).actions,
        a.handler = "channel.delete" ∨ a.handler = "role.delete") :
    ∃ p : PendingPatch,
      (patchPlan store gid text ops maxA code now).2 gid = some p ∧
      p.hasDeletes = true ∧ p.code = code ∧ p.createdAt = now ∧
      (patchPlan store gid text ops maxA code now).1 = PlanOutcome.planned code true ∧
      (∀ (σ : Type) (handlers : HandlerMap σ) (now2 : Int) (raw : String) (s0 : σ),
        jsToUpperCase raw = code → ¬ now2 - now > PATCH_CONFIRM_TTL_MS →
        patchApply handlers (patchPlan store gid text ops maxA code now).2 gid now2 raw false s0 =
          (ApplyOutcome.destructiveBlocked, (patchPlan store gid text ops maxA code now).2, s0)) ∧
      (∀ (σ : Type) (handlers : HandlerMap σ) (now2 : Int) (raw : String) (s0 : σ),
        jsToUpperCase raw = code → ¬ now2 - now > PATCH_CONFIRM_TTL_MS →
        ∃ (rs : List ActionResult) (s1 : σ),
          patchApply handlers (patchPlan store gid text ops maxA code now).2 gid now2 raw true s0 =
            (ApplyOutcome.executed rs,
              storeDelete (patchPlan store gid text ops maxA code now).2 gid, s1)) := by
  have hany : (parsePatchScript text ops maxA).actions.any
      (fun a => a.handler == "channel.delete" || a.handler == "role.delete") = true := by
    obtain ⟨a, ha, hh⟩ := hdel
    refine List.any_eq_true.2 ⟨a, ha, ?_⟩
    rcases hh with h | h <;> simp [h]
  have hplan : patchPlan store gid text ops maxA code now =
      (PlanOutcome.planned code true,
        storeSet store gid ⟨code, (parsePatchScript text ops maxA).actions, now, true⟩) := by
    simp only [patchPlan]
    rw [if_neg (by simp [hnoerr])]
    simp [hany]
  refine ⟨⟨code, (parsePatchScript text ops maxA).actions, now, true⟩, ?_, rfl, rfl, rfl, ?_, ?_, ?_⟩
  · rw [hplan]; simp [storeSet]
  · rw [hplan]
  · intro σ handlers now2 raw s0 hcode httl
    rw [hplan]
    simp only [patchApply, storeSet, if_pos]
    rw [if_neg httl, if_neg (fun hne => hne hcode.symm)]
    simp
  · intro σ handlers now2 raw s0 hcode httl
    rw [hplan]
    refine ⟨(applyActions handlers s0 (parsePatchScript text ops maxA).actions).2,
            (applyActions handlers s0 (parsePatchScript text ops maxA).actions).1, ?_⟩
    simp only [patchApply, storeSet, if_pos]
    rw [if_neg httl, if_neg (fun hne => hne hcode.symm)]
    simp

/-- C5 witness: the gating theorem on the one-line delete script, with a
wrong-case correct code, checked at both values of the opt-in. -/
theorem plan_destructive_gating_w :
    ∃ p : PendingPatch,
      (patchPlan emptyStore "g" delScript regDelChannel 10 "ABC123" 0).2 "g" = some p ∧
      p.hasDeletes = true ∧ p.code = "ABC123" ∧ p.createdAt = 0 ∧
      (patchPlan emptyStore "g" delScript regDelChannel 10 "ABC123" 0).1 =
        PlanOutcome.planned "ABC123" true ∧
      (∀ (σ : Type) (handlers : HandlerMap σ) (now2 : Int) (raw : String) (s0 : σ),
        jsToUpperCase raw = "ABC123" → ¬ now2 - 0 > PATCH_CONFIRM_TTL_MS →
        patchApply handlers (patchPlan emptyStore "g" delScript regDelChannel 10 "ABC123" 0).2
            "g" now2 raw false s0 =
          (ApplyOutcome.destructiveBlocked,
            (patchPlan emptyStore "g" delScript regDelChannel 10 "ABC123" 0).2, s0)) ∧
      (∀ (σ : Type) (handlers : HandlerMap σ) (now2 : Int) (raw : String) (s0 : σ),
        jsToUpperCase raw = "ABC123" → ¬ now2 - 0 > PATCH_CONFIRM_TTL_MS →
        ∃ (rs : List ActionResult) (s1 : σ),
          patchApply handlers (patchPlan emptyStore "g" delScript regDelChannel 10 "ABC123" 0).2
              "g" now2 raw true s0 =
            (ApplyOutcome.executed rs,
              storeDelete (patchPlan emptyStore "g" delScript regDelChannel 10 "ABC123" 0).2 "g",
              s1)) :=
  plan_destructive_gating emptyStore "g" delScript regDelChannel 10 "ABC123" 0
    (by decide) (by decide)

end Sawachi

namespace Sawachi

/-- C6: the executor processes actions strictly sequentially and returns one
result per action in input order (the result lines are exactly the action
lines, for every batch); when a handler raises, the failure is recorded with
the message, source line and handler identifier, and the remaining actions
are still executed from the post-handler state. -/
theorem applyActions_partial_failure {σ : Type} (handlers : HandlerMap σ) (s : σ)
    (a : Action) (rest : List Action)
    (fn : σ → List (String × String) → σ × Except String HandlerRes) (msg : String)
    (hfn : handlers a.handler = some fn)
    (hraise : (fn s a.args).2 = Except.error msg) :
    (applyActions handlers s (a :: rest)).2 =
      ⟨false, a.line, some a.handler, some msg, none, none⟩ ::
        (applyActions handlers (fn s a.args).1 rest).2 ∧
    ∀ (t : σ) (acts : List Action),
      ((applyActions handlers t acts).2).map (fun r => r.line) = acts.map (fun x => x.line) := by
  constructor
  · simp only [applyActions, hfn, hraise]
  · exact applyActions_map_line handlers

/-- C6 witness: the three-action batch whose second handler raises yields a
success, the recorded failure, then a success. -/
theorem applyActions_partial_failure_w :
    (applyActions wHandlers 1 [wA2, wA3]).2 =
      ⟨false, 2, some "h", some "boom", none, none⟩ :: (applyActions wHandlers 2 [wA3]).2 ∧
    ((applyActions wHandlers 0 [wA1, wA2, wA3]).2).map (fun r => r.line) =
      [wA1, wA2, wA3].map (fun x => x.line) ∧
    (applyActions wHandlers 0 [wA1, wA2, wA3]).2 =
      [⟨true, 1, some "h", none, some true, none⟩,
       ⟨false, 2, some "h", some "boom", none, none⟩,
       ⟨true, 3, some "h", none, some true, none⟩] := by
  have h := applyActions_partial_failure wHandlers 1 wA2 [wA3] wFn "boom" rfl rfl
  exact ⟨h.1, h.2 0 [wA1, wA2, wA3], by decide⟩

/-- Uppercasing a lowercase hexadecimal digit yields an uppercase
hexadecimal digit and is idempotent there. -/
theorem hexDigit_upper (d : Nat) (hd : d < 16) :
    isUpperHexDigit (Char.toUpper (hexDigitChar d)) = true ∧
    Char.toUpper (Char.toUpper (hexDigitChar d)) = Char.toUpper (hexDigitChar d) := by
  interval_cases d <;> exact ⟨by decide, by decide⟩

/-- C10: every generated confirmation code is exactly six uppercase
hexadecimal characters; the apply handler uppercases the submitted code
before comparing, so any string equal to the code up to character case
uppercases to the stored code and never fails the code gate. -/
theorem confirm_code_case_insensitive (σ : Type) (b0 b1 b2 : Nat)
    (h0 : b0 < 256) (h1 : b1 < 256) (h2 : b2 < 256) :
    (makeConfirmCode b0 b1 b2).length = 6 ∧
    (∀ c ∈ (makeConfirmCode b0 b1 b2).data,
      isUpperHexDigit c = true) ∧
    (∀ s : String, s.data.map Char.toUpper = (makeConfirmCode b0 b1 b2).data.map Char.toUpper →
      jsToUpperCase s = makeConfirmCode b0 b1 b2) ∧
    (∀ (handlers : HandlerMap σ) (store : PatchStore) (gid : String) (now : Int)
        (raw : String) (allow : Bool) (s0 : σ) (p : PendingPatch),
      store gid = some p → p.code = makeConfirmCode b0 b1 b2 →
      ¬ now - p.createdAt > PATCH_CONFIRM_TTL_MS →
      raw.data.map Char.toUpper = (makeConfirmCode b0 b1 b2).data.map Char.toUpper →
      (patchApply handlers store gid now raw allow s0).1 ≠ ApplyOutcome.invalidCode) := by
  have hq : ∀ b : Nat, b < 256 → b / 16 < 16 ∧ b % 16 < 16 := by intro b hb; omega
  have hdata : (makeConfirmCode b0 b1 b2).data =
      [Char.toUpper (hexDigitChar (b0 / 16)), Char.toUpper (hexDigitChar (b0 % 16)),
       Char.toUpper (hexDigitChar (b1 / 16)), Char.toUpper (hexDigitChar (b1 % 16)),
       Char.toUpper (hexDigitChar (b2 / 16)), Char.toUpper (hexDigitChar (b2 % 16))] := by
    simp [makeConfirmCode, jsToUpperCase, byteToHex]
  have hidem : (makeConfirmCode b0 b1 b2).data.map Char.toUpper = (makeConfirmCode b0 b1 b2).data := by
    rw [hdata]
    simp only [List.map_cons, List.map_nil]
    rw [(hexDigit_upper _ (hq b0 h0).1).2, (hexDigit_upper _ (hq b0 h0).2).2,
        (hexDigit_upper _ (hq b1 h1).1).2, (hexDigit_upper _ (hq b1 h1).2).2,
        (hexDigit_upper _ (hq b2 h2).1).2, (hexDigit_upper _ (hq b2 h2).2).2]
  have hupper : ∀ s : String,
      s.data.map Char.toUpper = (makeConfirmCode b0 b1 b2).data.map Char.toUpper →
      jsToUpperCase s = makeConfirmCode b0 b1 b2 := by
    intro s hs
    refine String.ext ?_
    show s.data.map Char.toUpper = (makeConfirmCode b0 b1 b2).data
    rw [hs, hidem]
  refine ⟨?_, ?_, hupper, ?_⟩
  · have hlen := congrArg List.length hdata
    simp only [List.length_cons, List.length_nil] at hlen
    show (makeConfirmCode b0 b1 b2).data.length = 6
    exact hlen
  · intro c hc
    rw [hdata] at hc
    simp only [List.mem_cons, List.not_mem_nil, or_false] at hc
    rcases hc with h | h | h | h | h | h
    · exact h ▸ (hexDigit_upper _ (hq b0 h0).1).1
    · exact h ▸ (hexDigit_upper _ (hq b0 h0).2).1
    · exact h ▸ (hexDigit_upper _ (hq b1 h1).1).1
    · exact h ▸ (hexDigit_upper _ (hq b1 h1).2).1
    · exact h ▸ (hexDigit_upper _ (hq b2 h2).1).1
    · exact h ▸ (hexDigit_upper _ (hq b2 h2).2).1
  · intro handlers store gid now raw allow s0 p hp hpcode httl hraw
    have hcode : jsToUpperCase raw = p.code := by rw [hpcode]; exact hupper raw hraw
    simp only [patchApply, hp]
    rw [if_neg httl, if_neg (fun hne => hne hcode.symm)]
    by_cases hb : (p.hasDeletes && !allow) = true
    · rw [if_pos hb]; simp
    · rw [if_neg hb]; simp

/-- C10 witness: the code of the bytes 171, 205 and 239 is the six
uppercase hexadecimal characters ABCDEF, its lowercase form uppercases to
it, and submitting it in mixed case passes the code gate of a store holding
it. -/
theorem confirm_code_case_insensitive_w :
    (makeConfirmCode 171 205 239).length = 6 ∧
    jsToUpperCase "abcdef" = makeConfirmCode 171 205 239 ∧
    (patchApply hmNone storeC "g" 5 "aBcDeF" true ()).1 ≠ ApplyOutcome.invalidCode := by
  have h := confirm_code_case_insensitive Unit 171 205 239 (by decide) (by decide) (by decide)
  exact ⟨h.1, h.2.2.1 "abcdef" (by decide),
    h.2.2.2 hmNone storeC "g" 5 "aBcDeF" true () pC rfl rfl (by decide) (by decide)⟩

end Sawachi

namespace Sawachi

/-- C7 counterexample: the mapping line whose verb before the inner colon is
missing is not skipped: it contributes an entry whose key starts with the
colon. -/
theorem opsLine_skip_cex :
    loadOpsMap ":channel = h:id" = [(":channel", ⟨"h", ["id"], 1⟩)] ∧
    loadOpsMap ":channel = h:id" ≠ [] := by decide

/-- C7 (amended): a mapping line contributes no entry exactly when the
trimmed line is blank or a comment, or the trimmed part before the first
equals sign is empty, or the part after the first equals sign is missing or
trims to empty; a line merely missing the verb, the resource type or the
handler identifier around the inner colon is not skipped and still
contributes an entry. -/
theorem opsLine_skip_iff (i : Nat) (ln : String) :
    opsLineEntry i ln = none ↔
      (jsTrim ln = "" ∨ jsStartsWithHash (jsTrim ln) = true ∨
        ((splitOnChar '=' (jsTrim ln).data).map (fun l => jsTrim ⟨l⟩)).headD "" = "" ∨
        ((splitOnChar '=' (jsTrim ln).data).map (fun l => jsTrim ⟨l⟩)).get? 1 = none ∨
        ((splitOnChar '=' (jsTrim ln).data).map (fun l => jsTrim ⟨l⟩)).get? 1 = some "") := by
  simp only [opsLineEntry]
  split
  case isTrue h =>
    simp only [Bool.or_eq_true, decide_eq_true_eq] at h
    refine iff_of_true rfl ?_
    rcases h with h | h
    · exact Or.inl h
    · exact Or.inr (Or.inl h)
  case isFalse h =>
    simp only [Bool.or_eq_true, decide_eq_true_eq, not_or] at h
    split
    case h_1 heq => exact iff_of_true rfl (Or.inr (Or.inr (Or.inr (Or.inl heq))))
    case h_2 right heq =>
      split
      case isTrue h3 =>
        simp only [Bool.or_eq_true, decide_eq_true_eq] at h3
        refine iff_of_true rfl ?_
        rcases h3 with h3 | h3
        · exact Or.inr (Or.inr (Or.inl h3))
        · exact Or.inr (Or.inr (Or.inr (Or.inr (h3 ▸ heq))))
      case isFalse h3 =>
        simp only [Bool.or_eq_true, decide_eq_true_eq, not_or] at h3
        refine iff_of_false (by simp) ?_
        intro hr
        rcases hr with h5 | h5 | h5 | h5 | h5
        · exact h.1 h5
        · exact h.2 h5
        · exact h3.1 h5
        · rw [heq] at h5; exact Option.noConfusion h5
        · rw [heq] at h5; exact h3.2 (Option.some.inj h5)

/-- C8 counterexample: in the diagnostics fixture the single parsed action
binds the name parameter to the token text with the quote characters
retained, not to the bare word. -/
theorem parse_diagnostics_cex :
    ((parsePatchScript c8Script regSetChannel 10).actions.head?.map
        (fun a => jsObjGet a.args "name")) = some (some "\"Lounge\"") ∧
    ((parsePatchScript c8Script regSetChannel 10).actions.head?.map
        (fun a => jsObjGet a.args "name")) ≠ some (some "Lounge") := by decide

/-- C8 (amended): the three-line fixture script parses against the registry
to exactly one action with handlerA, the identifier bound positionally and
the name bound to the quoted token text including its quotes, plus exactly
one unknown-operation error naming line three; the comment line is skipped
and the resolution failure does not abort parsing. -/
theorem parse_diagnostics_accumulate :
    parsePatchScript c8Script regSetChannel 10 =
      ⟨[⟨"set", "channel", "handlerA",
          [("id", "111111111111111111"), ("name", "\"Lounge\"")], 2,
          "set channel 111111111111111111 name=\"Lounge\""⟩],
        [unknownOpMsg 3 "bogus" "thing"], []⟩ := by decide

/-- C9 counterexample: a script consisting of the single colon-shorthand
token is rejected with the format diagnostic and yields no action even
though the operation resolves in the registry. -/
theorem singleToken_cex :
    (parsePatchScript "set:channel" regSetChannel 10).actions = [] ∧
    (parsePatchScript "set:channel" regSetChannel 10).errors = [fmtInvalidMsg 1] ∧
    resolveOp regSetChannel "set" "channel" ≠ none := by decide

/-- C9 (amended): any non-blank, non-comment single-line script that
tokenizes to one single token - in particular the colon shorthand with zero
argument tokens - is rejected with the format diagnostic and produces no
action, whatever the registry contains: the minimum-token check runs before
the colon shorthand, which therefore only applies on lines of at least two
tokens. -/
theorem singleToken_rejected (s : String) (ops : OpsMap) (maxA : Nat)
    (hsplit : jsSplitLines s = [s]) (htrim : jsTrim s = s) (hne : s ≠ "")
    (hhash : jsStartsWithHash s = false) (htok : (tokenize s).length = 1) :
    parsePatchScript s ops maxA = ⟨[], [fmtInvalidMsg 1], []⟩ := by
  simp only [parsePatchScript, hsplit]
  simp [parseLines, lineStep, htrim, htok, hne, hhash]

/-- C9 witness: the single-token colon line of an unrelated verb against the
empty registry. -/
theorem singleToken_rejected_w :
    parsePatchScript "keep:role" [] 10 = ⟨[], [fmtInvalidMsg 1], []⟩ :=
  singleToken_rejected "keep:role" [] 10 (by decide) (by decide) (by decide) (by decide) (by decide)

end Sawachi
